import Mathlib

/-
Verification development for the duct/damper association core
(`duct_damper_association.py`): the point-to-segment distance routine
`point_to_line_distance` and the greedy one-to-one resolver
`map_dampers_to_ducts`.

Embedding conventions, used throughout this file:

* Coordinates are rationals (`ℚ`).  The Python code computes Euclidean
  distances with `math.sqrt`; every use the program makes of a distance
  value (minimisation over the segments of a duct, comparison with the
  distance threshold, the `(priority, distance)` sort key) is invariant
  under the strictly monotone map `Real.sqrt`, so the embedding carries
  the *squared* distance everywhere a distance appears.  The lemmas
  `extension_lower_iff` and `Real.sqrt_le_iff` relate the rational
  comparisons used here to the real comparisons the source performs.

* The source's extension test `-extension_ratio <= t <= 1 + extension_ratio`
  with `extension_ratio = DUCT_EXTENSION_UNITS / sqrt(line_length_sq)` is
  encoded by the equivalent rational condition
  `(0 ≤ t ∨ t^2·Lsq ≤ 13^2) ∧ (t ≤ 1 ∨ (t-1)^2·Lsq ≤ 13^2)`;
  the equivalence (for `Lsq > 0`) is proved below, not assumed.

* The threshold test `min_distance <= self.distance_threshold` on square
  roots is encoded as `0 ≤ thr ∧ dSq ≤ thr^2`, which is equivalent to
  `Real.sqrt dSq ≤ thr` (`Real.sqrt_le_iff`).

* Python's `list.sort` is a stable sort by the key
  `(type_priority, distance)`; it is modelled by Mathlib's
  `List.insertionSort` with the corresponding lexicographic total
  preorder, which is a stable sort and therefore produces the same list.

* The Python dict `damper_to_duct_mapping` is modelled as an association
  list with dict semantics: `dictSet` updates an existing key in place
  and otherwise appends at the end (insertion order), `dictGet` looks a
  key up.  Python's list indexing `damper_coords[i]`, `duct_coords[j]`
  and `duct_used[j]` is modelled with the total `get?`/`getD`/`set`
  (the indices reaching them are proved in range, so the defaults and
  the out-of-range no-op of `List.set` are never exercised).
-/

/-- A 2D coordinate, as extracted for dampers and duct polyline vertices. -/
abbrev Point : Type := ℚ × ℚ

/-- Squared Euclidean distance between two points (the source computes
`math.sqrt` of exactly this quantity). -/
def distSq (p q : Point) : ℚ := (p.1 - q.1) ^ 2 + (p.2 - q.2) ^ 2

/-- The three-way intersection classification returned by
`point_to_line_distance`: the strings "actual", "extended", "none". -/
inductive IType : Type
  | actual
  | extended
  | noneI
deriving DecidableEq

/-- Constant `DUCT_EXTENSION_UNITS = 13.0` from the source. -/
def DUCT_EXTENSION_UNITS : ℚ := 13

/-- `line_length_sq = (x2 - x1) ** 2 + (y2 - y1) ** 2`. -/
def lineLenSq (s e : Point) : ℚ := (e.1 - s.1) ^ 2 + (e.2 - s.2) ^ 2

/-- Projection parameter
`t = ((px - x1) * (x2 - x1) + (py - y1) * (y2 - y1)) / line_length_sq`
(only consulted by `point_to_line_distance` when `lineLenSq s e ≠ 0`). -/
def tParam (p s e : Point) : ℚ :=
  ((p.1 - s.1) * (e.1 - s.1) + (p.2 - s.2) * (e.2 - s.2)) / lineLenSq s e

/-- The (possibly extrapolated) foot of the perpendicular:
`(x1 + t * (x2 - x1), y1 + t * (y2 - y1))`. -/
def foot (p s e : Point) : Point :=
  (s.1 + tParam p s e * (e.1 - s.1), s.2 + tParam p s e * (e.2 - s.2))

/-- Embedding of `point_to_line_distance(point, line_start, line_end)`
(source lines 28-80), with squared distances in the first component.
Branches, in source order:
1. zero squared length: distance to `line_start`, "actual";
2. `0 <= t <= 1`: distance to the foot, "actual";
3. `-extension_ratio <= t <= 1 + extension_ratio`: distance to the
   extrapolated foot, "extended" (rationalised comparison, see header);
4. otherwise: `min(dist_to_start, dist_to_end)`, "none". -/
def point_to_line_distance (p s e : Point) : ℚ × IType :=
  if lineLenSq s e = 0 then
    (distSq p s, IType.actual)
  else if 0 ≤ tParam p s e ∧ tParam p s e ≤ 1 then
    (distSq p (foot p s e), IType.actual)
  else if (0 ≤ tParam p s e ∨ tParam p s e ^ 2 * lineLenSq s e ≤ DUCT_EXTENSION_UNITS ^ 2) ∧
      (tParam p s e ≤ 1 ∨ (tParam p s e - 1) ^ 2 * lineLenSq s e ≤ DUCT_EXTENSION_UNITS ^ 2) then
    (distSq p (foot p s e), IType.extended)
  else
    (min (distSq p s) (distSq p e), IType.noneI)

/-- The per-segment results of the inner loop of `map_dampers_to_ducts`
(source lines 163-167): `point_to_line_distance` on every pair of
consecutive polyline vertices, in order. -/
def segResults (p : Point) (coords : List Point) : List (ℚ × IType) :=
  (coords.zip coords.tail).map fun se => point_to_line_distance p se.1 se.2

/-- The per-segment results whose classification is not "none" (the only
ones the running-minimum update of lines 170-172 considers). -/
def nonNone (p : Point) (coords : List Point) : List (ℚ × IType) :=
  (segResults p coords).filter fun r => decide (r.2 ≠ IType.noneI)

/-- One update of the running `(min_distance, best_intersection_type)`
state of source lines 160-172.  `Option.none` is the initial state
`(inf, "none")`: the best type stays "none" exactly while `min_distance`
is still `inf`, because both are updated together. -/
def segStep (acc : Option (ℚ × IType)) (r : ℚ × IType) : Option (ℚ × IType) :=
  match acc with
  | Option.none => if r.2 ≠ IType.noneI then some r else Option.none
  | some m => if r.2 ≠ IType.noneI ∧ r.1 < m.1 then some r else some m

/-- The inner loop of source lines 160-172, walking the consecutive
vertex pairs `(coords[i], coords[i+1])` in order while updating the
running state with `segStep`. -/
def ductBestAux (p : Point) (acc : Option (ℚ × IType)) : List Point → Option (ℚ × IType)
  | s :: e :: rest => ductBestAux p (segStep acc (point_to_line_distance p s e)) (e :: rest)
  | _ => acc

/-- Duct-level result for one (damper point, duct polyline) pair: the
inner loop of source lines 160-172.  `some (dSq, ty)` corresponds to
`(min_distance, best_intersection_type)` with at least one non-"none"
segment seen; `Option.none` corresponds to `(inf, "none")`. -/
def ductBest (p : Point) (coords : List Point) : Option (ℚ × IType) :=
  ductBestAux p Option.none coords

/-- A candidate tuple `(intersection_type, distance, damper_idx, duct_idx)`
(source line 155; distance squared, per the header convention). -/
abbrev Cand : Type := IType × ℚ × ℕ × ℕ

/-- `type_priority = 0 if intersection_type == "actual" else 1`
(source line 182). -/
def typePriority : IType → ℕ
  | IType.actual => 0
  | _ => 1

/-- The sort order of source lines 179-185: ascending lexicographic
comparison of the key `(type_priority, distance)`. -/
def candLEr (a b : Cand) : Prop :=
  typePriority a.1 < typePriority b.1 ∨
    (typePriority a.1 = typePriority b.1 ∧ a.2.1 ≤ b.2.1)

instance : DecidableRel candLEr := fun a b => by
  unfold candLEr
  exact inferInstance

instance : IsTotal Cand candLEr :=
  ⟨fun a b => by
    unfold candLEr
    rcases Nat.lt_trichotomy (typePriority a.1) (typePriority b.1) with h | h | h
    · exact Or.inl (Or.inl h)
    · rcases le_total a.2.1 b.2.1 with h' | h'
      · exact Or.inl (Or.inr ⟨h, h'⟩)
      · exact Or.inr (Or.inr ⟨h.symm, h'⟩)
    · exact Or.inr (Or.inl h)⟩

instance : IsTrans Cand candLEr :=
  ⟨fun a b c hab hbc => by
    unfold candLEr at *
    rcases hab with h1 | ⟨h1, h1'⟩ <;> rcases hbc with h2 | ⟨h2, h2'⟩
    · exact Or.inl (h1.trans h2)
    · exact Or.inl (h2 ▸ h1)
    · exact Or.inl (h1 ▸ h2)
    · exact Or.inr ⟨h1.trans h2, h1'.trans h2'⟩⟩

/-- The inner `for duct_idx, ... in enumerate(duct_coords)` loop of
source lines 158-176, for the damper with point `p` and index `dIdx`:
`uIdx` is the running duct index.  A pair is recorded exactly when the
duct-level classification is not "none" and the distance is within the
threshold (`0 ≤ thr ∧ dSq ≤ thr²` encodes `sqrt dSq ≤ thr`). -/
def ductCands (p : Point) (thr : ℚ) (dIdx : ℕ) :
    ℕ → List (String × List Point) → List Cand
  | _, [] => []
  | uIdx, du :: rest =>
    (match ductBest p du.2 with
      | some r => if 0 ≤ thr ∧ r.1 ≤ thr ^ 2 then [(r.2, r.1, dIdx, uIdx)] else []
      | Option.none => []) ++ ductCands p thr dIdx (uIdx + 1) rest

/-- The outer `for d_idx, ... in enumerate(damper_coords)` loop of source
lines 157-176: `dIdx` is the running damper index. -/
def candidatesAux (ul : List (String × List Point)) (thr : ℚ) :
    ℕ → List (String × Point) → List Cand
  | _, [] => []
  | dIdx, dp :: rest => ductCands dp.2 thr dIdx 0 ul ++ candidatesAux ul thr (dIdx + 1) rest

/-- The full candidate list of source lines 154-176: for each damper
index and duct index (both loops in input order), record
`(best_intersection_type, min_distance, d_idx, duct_idx)`. -/
def candidates (dl : List (String × Point)) (ul : List (String × List Point))
    (thr : ℚ) : List Cand :=
  candidatesAux ul thr 0 dl

/-- `candidate_pairs.sort(key=sort_key)` (source line 185): Python's sort
is stable, and `List.insertionSort` is the stable sort for the total
preorder `candLEr`, so it produces the identical list. -/
def sortedCandidates (dl : List (String × Point)) (ul : List (String × List Point))
    (thr : ℚ) : List Cand :=
  (candidates dl ul thr).insertionSort candLEr

/-- `damper_coords[damper_idx][0]` (source line 200; the scan only reaches
in-range indices, so the default is never used). -/
def damperId (dl : List (String × Point)) (c : Cand) : String :=
  ((dl.get? c.2.2.1).getD ("", (0, 0))).1

/-- `duct_coords[duct_idx][0]` (source line 201). -/
def ductId (ul : List (String × List Point)) (c : Cand) : String :=
  ((ul.get? c.2.2.2).getD ("", [])).1

/-- Python dict assignment `m[k] = v`: update the entry for `k` in place
if present, else append `(k, v)` in insertion order. -/
def dictSet : List (String × String) → String → String → List (String × String)
  | [], k, v => [(k, v)]
  | kv :: rest, k, v => if kv.1 = k then (k, v) :: rest else kv :: dictSet rest k v

/-- Python dict lookup `m[k]` (as an `Option`). -/
def dictGet : List (String × String) → String → Option String
  | [], _ => Option.none
  | kv :: rest, k => if kv.1 = k then some kv.2 else dictGet rest k

/-- Accumulator recursion behind `initMapping`. -/
def initMappingAux (m : List (String × String)) : List (String × Point) →
    List (String × String)
  | [] => m
  | dp :: rest => initMappingAux (dictSet m dp.1 "NA") rest

/-- `{damper_id: 'NA' for damper_id, _ in damper_coords}` (source
line 192): every supplied damper id pre-seeded with the sentinel. -/
def initMapping (dl : List (String × Point)) : List (String × String) :=
  initMappingAux [] dl

/-- One iteration of the greedy scan (source lines 195-203): skip if the
candidate's duct is already used, otherwise assign damper→duct and mark
the duct used.  Note the source checks only `duct_used`, never whether
the damper already holds an assignment. -/
def scanStep (dl : List (String × Point)) (ul : List (String × List Point))
    (st : List Bool × List (String × String)) (c : Cand) :
    List Bool × List (String × String) :=
  if st.1.getD c.2.2.2 false then st
  else (st.1.set c.2.2.2 true, dictSet st.2 (damperId dl c) (ductId ul c))

/-- The loop of source lines 195-203 from an arbitrary state. -/
def scanAux (dl : List (String × Point)) (ul : List (String × List Point))
    (st : List Bool × List (String × String)) : List Cand →
    List Bool × List (String × String)
  | [] => st
  | c :: cs => scanAux dl ul (scanStep dl ul st c) cs

/-- The whole scan of source lines 189-203, from
`duct_used = [False] * len(duct_coords)` and the pre-seeded mapping.
The first component is the final `duct_used`, the second the mapping. -/
def scanFold (dl : List (String × Point)) (ul : List (String × List Point))
    (cs : List Cand) : List Bool × List (String × String) :=
  scanAux dl ul (List.replicate ul.length false, initMapping dl) cs

/-- Embedding of `map_dampers_to_ducts(damper_coords, duct_coords)`
(source lines 140-205), with explicit `distance_threshold` argument. -/
def map_dampers_to_ducts (dl : List (String × Point)) (ul : List (String × List Point))
    (thr : ℚ) : List (String × String) :=
  (scanFold dl ul (sortedCandidates dl ul thr)).2

/-- Specification-side helper: keep the first strict minimum of a list,
starting from an optional current best.  `ductBest` is proved equal to
`firstMin Option.none` on the non-"none" segment results. -/
def firstMin : Option (ℚ × IType) → List (ℚ × IType) → Option (ℚ × IType)
  | acc, [] => acc
  | Option.none, r :: rs => firstMin (some r) rs
  | some m, r :: rs => firstMin (some (if r.1 < m.1 then r else m)) rs

/-- Specification-side helper: the sublist of candidates that succeed in
the greedy scan, i.e. whose duct is still unused at the moment they are
scanned (each success marks its duct used for the rest of the scan). -/
def assigned (used : List Bool) : List Cand → List Cand
  | [] => []
  | c :: cs =>
    if used.getD c.2.2.2 false then assigned used cs
    else c :: assigned (used.set c.2.2.2 true) cs

/-- Specification-side helper: mark the duct index of every listed
candidate as used, in order. -/
def setTrues (used : List Bool) : List Cand → List Bool
  | [] => used
  | c :: cs => setTrues (used.set c.2.2.2 true) cs

/-- Specification-side helper: perform a list of dict assignments in
order. -/
def insertList (m : List (String × String)) : List (String × String) →
    List (String × String)
  | [] => m
  | e :: rest => insertList (dictSet m e.1 e.2) rest

/-- Specification-side helper: the value of the last entry with key `k`
in a list of (key, value) assignments, if any. -/
def lastVal? : List (String × String) → String → Option String
  | [], _ => Option.none
  | e :: rest, k =>
    match lastVal? rest k with
    | some v => some v
    | Option.none => if e.1 = k then some e.2 else Option.none

/-- Helper `simp` fact: "actual" is not "none". -/
theorem actual_eq_noneI_iff : (IType.actual = IType.noneI) ↔ False := by simp

/-- Helper `simp` fact: "extended" is not "none". -/
theorem extended_eq_noneI_iff : (IType.extended = IType.noneI) ↔ False := by simp

theorem lineLenSq_nonneg (s e : Point) : 0 ≤ lineLenSq s e := by
  unfold lineLenSq
  positivity

theorem lineLenSq_eq_zero_iff (s e : Point) : lineLenSq s e = 0 ↔ s = e := by
  obtain ⟨s1, s2⟩ := s
  obtain ⟨e1, e2⟩ := e
  unfold lineLenSq
  constructor
  · intro h
    have h1 : e1 = s1 := by nlinarith [sq_nonneg (e1 - s1), sq_nonneg (e2 - s2)]
    have h2 : e2 = s2 := by nlinarith [sq_nonneg (e1 - s1), sq_nonneg (e2 - s2)]
    simp [h1, h2]
  · intro h
    obtain ⟨h1, h2⟩ := Prod.mk.injEq .. ▸ h
    simp at h
    rw [h.1, h.2]
    ring

/-- The source compares `t` against `-extension_ratio` where
`extension_ratio = DUCT_EXTENSION_UNITS / sqrt(line_length_sq)`; over the
reals this is equivalent to the rational test used in the embedding. -/
theorem extension_lower_iff (L t : ℚ) (hL : 0 < L) :
    -(((DUCT_EXTENSION_UNITS : ℚ) : ℝ) / Real.sqrt ((L : ℚ) : ℝ)) ≤ ((t : ℚ) : ℝ) ↔
      (0 ≤ t ∨ t ^ 2 * L ≤ DUCT_EXTENSION_UNITS ^ 2) := by
  have hLR : (0 : ℝ) < ((L : ℚ) : ℝ) := by exact_mod_cast hL
  have hs : 0 < Real.sqrt ((L : ℚ) : ℝ) := Real.sqrt_pos.mpr hLR
  have h13 : ((DUCT_EXTENSION_UNITS : ℚ) : ℝ) = 13 := by norm_num [DUCT_EXTENSION_UNITS]
  by_cases ht : 0 ≤ t
  · have htR : (0 : ℝ) ≤ ((t : ℚ) : ℝ) := by exact_mod_cast ht
    have hpos : 0 < ((DUCT_EXTENSION_UNITS : ℚ) : ℝ) / Real.sqrt ((L : ℚ) : ℝ) := by
      rw [h13]
      positivity
    constructor
    · intro _
      exact Or.inl ht
    · intro _
      linarith
  · have htR : ((t : ℚ) : ℝ) < 0 := by exact_mod_cast not_le.mp ht
    have key : -((t : ℚ) : ℝ) * Real.sqrt ((L : ℚ) : ℝ) = Real.sqrt (((t ^ 2 * L : ℚ) : ℝ)) := by
      push_cast
      rw [Real.sqrt_mul (by positivity) ((L : ℚ) : ℝ), Real.sqrt_sq_eq_abs, abs_of_neg htR]
    rw [neg_le, le_div_iff₀ hs, key, h13, Real.sqrt_le_left (by norm_num : (0 : ℝ) ≤ 13),
      or_iff_right ht]
    have : ((13 : ℝ) ^ 2) = ((169 : ℚ) : ℝ) := by norm_num
    rw [this]
    rw [show DUCT_EXTENSION_UNITS ^ 2 = 169 by norm_num [DUCT_EXTENSION_UNITS]]
    exact_mod_cast Iff.rfl

/-- Same for the upper comparison `t <= 1 + extension_ratio`. -/
theorem extension_upper_iff (L t : ℚ) (hL : 0 < L) :
    ((t : ℚ) : ℝ) ≤ 1 + ((DUCT_EXTENSION_UNITS : ℚ) : ℝ) / Real.sqrt ((L : ℚ) : ℝ) ↔
      (t ≤ 1 ∨ (t - 1) ^ 2 * L ≤ DUCT_EXTENSION_UNITS ^ 2) := by
  have h := extension_lower_iff L (1 - t) hL
  rw [show (((1 - t : ℚ)) : ℝ) = 1 - ((t : ℚ) : ℝ) by push_cast; ring] at h
  have hsq : (1 - t) ^ 2 = (t - 1) ^ 2 := by ring
  constructor
  · intro hle
    have h' : -(((DUCT_EXTENSION_UNITS : ℚ) : ℝ) / Real.sqrt ((L : ℚ) : ℝ)) ≤ 1 - ((t : ℚ) : ℝ) := by
      linarith
    rcases h.mp h' with h1 | h2
    · exact Or.inl (by linarith)
    · rw [hsq] at h2
      exact Or.inr h2
  · intro hor
    have h' : 0 ≤ 1 - t ∨ (1 - t) ^ 2 * L ≤ DUCT_EXTENSION_UNITS ^ 2 := by
      rcases hor with h1 | h2
      · exact Or.inl (by linarith)
      · rw [hsq]
        exact Or.inr h2
    have := h.mpr h'
    linarith

/-- C3: for a non-degenerate segment, `point_to_line_distance` classifies
by the projection parameter `t`: inside `[0, 1]` (inclusive) it returns
the (squared) distance to the foot as "actual"; outside `[0, 1]` but
within `[-extensionRatio, 1 + extensionRatio]` (inclusive), with
`extensionRatio = 13 / segmentLength`, it returns the (squared) distance
to the extrapolated foot as "extended"; otherwise it returns
`min` of the (squared) distances to the endpoints as "none". -/
theorem ptld_classification (p s e : Point) (h0 : lineLenSq s e ≠ 0) :
    ((0 ≤ tParam p s e ∧ tParam p s e ≤ 1) →
        point_to_line_distance p s e = (distSq p (foot p s e), IType.actual)) ∧
    (¬(0 ≤ tParam p s e ∧ tParam p s e ≤ 1) →
      (-(((DUCT_EXTENSION_UNITS : ℚ) : ℝ) / Real.sqrt ((lineLenSq s e : ℚ) : ℝ)) ≤
          ((tParam p s e : ℚ) : ℝ) ∧
        ((tParam p s e : ℚ) : ℝ) ≤
          1 + ((DUCT_EXTENSION_UNITS : ℚ) : ℝ) / Real.sqrt ((lineLenSq s e : ℚ) : ℝ)) →
        point_to_line_distance p s e = (distSq p (foot p s e), IType.extended)) ∧
    (¬(0 ≤ tParam p s e ∧ tParam p s e ≤ 1) →
      ¬(-(((DUCT_EXTENSION_UNITS : ℚ) : ℝ) / Real.sqrt ((lineLenSq s e : ℚ) : ℝ)) ≤
          ((tParam p s e : ℚ) : ℝ) ∧
        ((tParam p s e : ℚ) : ℝ) ≤
          1 + ((DUCT_EXTENSION_UNITS : ℚ) : ℝ) / Real.sqrt ((lineLenSq s e : ℚ) : ℝ)) →
        point_to_line_distance p s e = (min (distSq p s) (distSq p e), IType.noneI)) := by
  have hL : 0 < lineLenSq s e := lt_of_le_of_ne (lineLenSq_nonneg s e) (Ne.symm h0)
  have hlow := extension_lower_iff (lineLenSq s e) (tParam p s e) hL
  have hup := extension_upper_iff (lineLenSq s e) (tParam p s e) hL
  refine ⟨?_, ?_, ?_⟩
  · intro h1
    unfold point_to_line_distance
    rw [if_neg h0, if_pos h1]
  · intro h1 h2
    unfold point_to_line_distance
    rw [if_neg h0, if_neg h1, if_pos ⟨hlow.mp h2.1, hup.mp h2.2⟩]
  · intro h1 h2
    unfold point_to_line_distance
    have hnc : ¬((0 ≤ tParam p s e ∨
        tParam p s e ^ 2 * lineLenSq s e ≤ DUCT_EXTENSION_UNITS ^ 2) ∧
        (tParam p s e ≤ 1 ∨
        (tParam p s e - 1) ^ 2 * lineLenSq s e ≤ DUCT_EXTENSION_UNITS ^ 2)) := by
      intro hc
      exact h2 ⟨hlow.mpr hc.1, hup.mpr hc.2⟩
    rw [if_neg h0, if_neg h1, if_neg hnc]

/-- Witness for C3 at a concrete input: point `(0,0)` against the
segment from `(0,5)` to `(0,15)` has `t = -1/2`, within the extension
`13/10` of this length-10 segment, so it classifies "extended". -/
theorem ptld_classification_w :
    point_to_line_distance (0, 0) (0, 5) (0, 15) =
      (distSq (0, 0) (foot (0, 0) (0, 5) (0, 15)), IType.extended) := by
  have h0 : lineLenSq ((0 : ℚ), (5 : ℚ)) ((0 : ℚ), (15 : ℚ)) ≠ 0 := by
    norm_num [lineLenSq]
  have ht : tParam ((0 : ℚ), (0 : ℚ)) ((0 : ℚ), (5 : ℚ)) ((0 : ℚ), (15 : ℚ)) = -(1 / 2) := by
    norm_num [tParam, lineLenSq]
  have hsq : Real.sqrt ((lineLenSq ((0 : ℚ), (5 : ℚ)) ((0 : ℚ), (15 : ℚ)) : ℚ) : ℝ) = 10 := by
    have h : ((lineLenSq ((0 : ℚ), (5 : ℚ)) ((0 : ℚ), (15 : ℚ)) : ℚ) : ℝ) = 10 ^ 2 := by
      norm_num [lineLenSq]
    rw [h, Real.sqrt_sq (by norm_num)]
  refine (ptld_classification (0, 0) (0, 5) (0, 15) h0).2.1 ?_ ?_
  · rw [ht]
    norm_num
  · rw [ht, hsq]
    norm_num [DUCT_EXTENSION_UNITS]

/-- C7: a degenerate segment (start = end, equivalently squared length 0)
always yields the (squared) Euclidean distance to that single coordinate
with classification "actual"; the branch is taken before any division. -/
theorem degenerate_segment_spec (p s e : Point) :
    (lineLenSq s e = 0 ↔ s = e) ∧
    (s = e → point_to_line_distance p s e = (distSq p s, IType.actual)) := by
  refine ⟨lineLenSq_eq_zero_iff s e, ?_⟩
  intro h
  subst h
  unfold point_to_line_distance
  rw [if_pos ((lineLenSq_eq_zero_iff s s).mpr rfl)]

/-- Witness for C7 at a concrete input. -/
theorem degenerate_segment_spec_w :
    point_to_line_distance (3, 4) (1, 1) (1, 1) = (distSq (3, 4) (1, 1), IType.actual) :=
  (degenerate_segment_spec (3, 4) (1, 1) (1, 1)).2 rfl

theorem segStep_of_noneI (acc : Option (ℚ × IType)) (r : ℚ × IType)
    (h : r.2 = IType.noneI) : segStep acc r = acc := by
  cases acc <;> simp [segStep, h]

theorem segStep_none_of_ne (r : ℚ × IType) (h : r.2 ≠ IType.noneI) :
    segStep Option.none r = some r := by
  simp [segStep, h]

theorem segStep_some_of_ne (m r : ℚ × IType) (h : r.2 ≠ IType.noneI) :
    segStep (some m) r = some (if r.1 < m.1 then r else m) := by
  simp only [segStep, h, ne_eq, not_false_iff, true_and]
  exact (apply_ite some (r.1 < m.1) r m).symm

/-- The running minimum of the inner segment loop equals `firstMin` over
the non-"none" segment results. -/
theorem ductBestAux_eq_firstMin (p : Point) : ∀ (coords : List Point)
    (acc : Option (ℚ × IType)),
    ductBestAux p acc coords =
      firstMin acc ((segResults p coords).filter fun r => decide (r.2 ≠ IType.noneI))
  | [], _ => by simp [ductBestAux, segResults, firstMin]
  | [_], _ => by simp [ductBestAux, segResults, firstMin]
  | s :: e :: rest, acc => by
    show ductBestAux p (segStep acc (point_to_line_distance p s e)) (e :: rest) = _
    rw [ductBestAux_eq_firstMin p (e :: rest) _]
    rw [show segResults p (s :: e :: rest) =
      point_to_line_distance p s e :: segResults p (e :: rest) from rfl]
    by_cases hr : (point_to_line_distance p s e).2 = IType.noneI
    · rw [List.filter_cons_of_neg (by simp [hr]), segStep_of_noneI _ _ hr]
    · rw [List.filter_cons_of_pos (by simp [hr])]
      cases acc with
      | none =>
        rw [segStep_none_of_ne _ hr]
        rfl
      | some m =>
        rw [segStep_some_of_ne _ _ hr]
        rfl

theorem firstMin_some_ne_none (m : ℚ × IType) : ∀ (l : List (ℚ × IType)),
    firstMin (some m) l ≠ Option.none
  | [] => by simp [firstMin]
  | r :: rs => by
    show firstMin (some (if r.1 < m.1 then r else m)) rs ≠ Option.none
    exact firstMin_some_ne_none _ rs

/-- `firstMin` from a seed returns the first minimum-distance element of
the seeded list: its value is a lower bound, and it is the first element
whose distance is at or below that bound. -/
theorem firstMin_spec (d : ℚ) (ty : IType) (l : List (ℚ × IType)) :
    ∀ m : ℚ × IType, firstMin (some m) l = some (d, ty) →
      (∀ r ∈ m :: l, d ≤ r.1) ∧
        List.find? (fun r => decide (r.1 ≤ d)) (m :: l) = some (d, ty) := by
  induction l with
  | nil =>
    intro m h
    simp only [firstMin] at h
    injection h with h
    subst h
    refine ⟨?_, ?_⟩
    · intro r hr
      simp only [List.mem_cons, List.not_mem_nil, or_false] at hr
      subst hr
      exact le_refl _
    · exact List.find?_cons_of_pos _ (by simp)
  | cons r rs ih =>
    intro m h
    rw [show firstMin (some m) (r :: rs) =
      firstMin (some (if r.1 < m.1 then r else m)) rs from rfl] at h
    by_cases hlt : r.1 < m.1
    · rw [if_pos hlt] at h
      obtain ⟨hmin, hfind⟩ := ih r h
      have hd_r : d ≤ r.1 := hmin r (List.mem_cons_self r rs)
      have hd_m : d < m.1 := lt_of_le_of_lt hd_r hlt
      refine ⟨?_, ?_⟩
      · intro x hx
        rcases List.mem_cons.mp hx with rfl | hx'
        · exact le_of_lt hd_m
        · exact hmin x hx'
      · rw [List.find?_cons_of_neg _ (by simp only [decide_eq_true_eq]; intro hc; linarith)]
        exact hfind
    · rw [if_neg hlt] at h
      obtain ⟨hmin, hfind⟩ := ih m h
      have hm_le_r : m.1 ≤ r.1 := le_of_not_lt hlt
      have hd_m : d ≤ m.1 := hmin m (List.mem_cons_self m rs)
      refine ⟨?_, ?_⟩
      · intro x hx
        rcases List.mem_cons.mp hx with rfl | hx'
        · exact hd_m
        · rcases List.mem_cons.mp hx' with rfl | hx''
          · exact le_trans hd_m hm_le_r
          · exact hmin x (List.mem_cons.mpr (Or.inr hx''))
      · by_cases hdm : m.1 ≤ d
        · have hm : m = (d, ty) := by
            rw [List.find?_cons_of_pos _ (by simp [hdm])] at hfind
            injection hfind
          rw [List.find?_cons_of_pos _ (by simp [hdm])]
          rw [hm]
        · have hdm' : d < m.1 := lt_of_not_le hdm
          rw [List.find?_cons_of_neg _ (by simp [hdm])] at hfind
          rw [List.find?_cons_of_neg _ (by simp [hdm]),
            List.find?_cons_of_neg _ (by simp only [decide_eq_true_eq]; intro hc; linarith)]
          exact hfind

/-- Characterisation of membership in the inner candidate loop: exactly
the ducts (at their offset index) whose duct-level result is non-"none"
and within the threshold. -/
theorem mem_ductCands (p : Point) (thr : ℚ) (dIdx : ℕ) :
    ∀ (ul : List (String × List Point)) (n : ℕ) (ty : IType) (d : ℚ) (i j : ℕ),
      (ty, d, i, j) ∈ ductCands p thr dIdx n ul ↔
        (i = dIdx ∧ ∃ j' du, ul.get? j' = some du ∧ j = n + j' ∧
          ductBest p du.2 = some (d, ty) ∧ 0 ≤ thr ∧ d ≤ thr ^ 2) := by
  intro ul
  induction ul with
  | nil =>
    intro n ty d i j
    simp [ductCands]
  | cons du rest ih =>
    intro n ty d i j
    have hcons : ductCands p thr dIdx n (du :: rest) =
        (match ductBest p du.2 with
          | some r => if 0 ≤ thr ∧ r.1 ≤ thr ^ 2 then [(r.2, r.1, dIdx, n)] else []
          | Option.none => []) ++ ductCands p thr dIdx (n + 1) rest := rfl
    have htail : ∀ h : (ty, d, i, j) ∈ ductCands p thr dIdx (n + 1) rest,
        i = dIdx ∧ ∃ j' du', (du :: rest).get? j' = some du' ∧ j = n + j' ∧
          ductBest p du'.2 = some (d, ty) ∧ 0 ≤ thr ∧ d ≤ thr ^ 2 := by
      intro h
      obtain ⟨hi, j', du', hget, hj, hrest⟩ := (ih (n + 1) ty d i j).mp h
      exact ⟨hi, j' + 1, du', by simpa using hget, by omega, hrest⟩
    have hback : ∀ (j' : ℕ) (du' : String × List Point),
        (du :: rest).get? j' = some du' → j = n + j' → i = dIdx →
        ductBest p du'.2 = some (d, ty) → 0 ≤ thr → d ≤ thr ^ 2 →
        1 ≤ j' → (ty, d, i, j) ∈ ductCands p thr dIdx (n + 1) rest := by
      intro j' du' hget hj hi hbest hthr1 hthr2 hge
      refine (ih (n + 1) ty d i j).mpr ⟨hi, j' - 1, du', ?_, by omega, hbest, hthr1, hthr2⟩
      obtain ⟨j'', rfl⟩ : ∃ j'', j' = j'' + 1 := ⟨j' - 1, by omega⟩
      simpa using hget
    rcases hb : ductBest p du.2 with _ | r
    · have hstep : ductCands p thr dIdx n (du :: rest) =
          ductCands p thr dIdx (n + 1) rest := by
        rw [hcons, hb]
        rfl
      rw [hstep]
      constructor
      · intro h
        exact htail h
      · rintro ⟨hi, j', du', hget, hj, hbest, hthr1, hthr2⟩
        cases j' with
        | zero =>
          simp only [List.get?_cons_zero, Option.some.injEq] at hget
          rw [← hget] at hbest
          rw [hb] at hbest
          exact absurd hbest (by simp)
        | succ j'' =>
          exact hback (j'' + 1) du' hget hj hi hbest hthr1 hthr2 (by omega)
    · have hstep : ductCands p thr dIdx n (du :: rest) =
          (if 0 ≤ thr ∧ r.1 ≤ thr ^ 2 then [(r.2, r.1, dIdx, n)] else []) ++
            ductCands p thr dIdx (n + 1) rest := by
        rw [hcons, hb]
      by_cases hc : 0 ≤ thr ∧ r.1 ≤ thr ^ 2
      · rw [hstep, if_pos hc, List.singleton_append]
        constructor
        · intro h
          rcases List.mem_cons.mp h with heq | htl
          · simp only [Prod.mk.injEq] at heq
            obtain ⟨h1, h2, h3, h4⟩ := heq
            refine ⟨h3, 0, du, by simp, by omega, ?_, ?_, ?_⟩
            · rw [h1, h2, hb]
            · exact hc.1
            · rw [h2]
              exact hc.2
          · exact htail htl
        · rintro ⟨hi, j', du', hget, hj, hbest, hthr1, hthr2⟩
          cases j' with
          | zero =>
            simp only [List.get?_cons_zero, Option.some.injEq] at hget
            rw [← hget] at hbest
            rw [hb] at hbest
            injection hbest with hbest
            subst hbest
            refine List.mem_cons.mpr (Or.inl ?_)
            show (ty, d, i, j) = (ty, d, dIdx, n)
            rw [hi]
            rw [show j = n by omega]
          | succ j'' =>
            exact List.mem_cons.mpr (Or.inr
              (hback (j'' + 1) du' hget hj hi hbest hthr1 hthr2 (by omega)))
      · rw [hstep, if_neg hc, List.nil_append]
        constructor
        · intro h
          exact htail h
        · rintro ⟨hi, j', du', hget, hj, hbest, hthr1, hthr2⟩
          cases j' with
          | zero =>
            simp only [List.get?_cons_zero, Option.some.injEq] at hget
            rw [← hget] at hbest
            rw [hb] at hbest
            injection hbest with hbest
            refine absurd ⟨hthr1, ?_⟩ hc
            rw [hbest]
            exact hthr2
          | succ j'' =>
            exact hback (j'' + 1) du' hget hj hi hbest hthr1 hthr2 (by omega)

/-- Characterisation of membership in the outer candidate loop. -/
theorem mem_candidatesAux (ul : List (String × List Point)) (thr : ℚ) :
    ∀ (dl : List (String × Point)) (n : ℕ) (ty : IType) (d : ℚ) (i j : ℕ),
      (ty, d, i, j) ∈ candidatesAux ul thr n dl ↔
        ∃ i' dp, dl.get? i' = some dp ∧ i = n + i' ∧
          (ty, d, i, j) ∈ ductCands dp.2 thr i 0 ul := by
  intro dl
  induction dl with
  | nil =>
    intro n ty d i j
    simp [candidatesAux]
  | cons dp rest ih =>
    intro n ty d i j
    have hcons : candidatesAux ul thr n (dp :: rest) =
        ductCands dp.2 thr n 0 ul ++ candidatesAux ul thr (n + 1) rest := rfl
    rw [hcons, List.mem_append]
    constructor
    · rintro (hhead | htl)
      · have hi : i = n := ((mem_ductCands dp.2 thr n ul 0 ty d i j).mp hhead).1
        subst hi
        exact ⟨0, dp, by simp, by omega, hhead⟩
      · obtain ⟨i', dp', hget, hi, hmem⟩ := (ih (n + 1) ty d i j).mp htl
        exact ⟨i' + 1, dp', by simpa using hget, by omega, hmem⟩
    · rintro ⟨i', dp', hget, hi, hmem⟩
      cases i' with
      | zero =>
        simp only [List.get?_cons_zero, Option.some.injEq] at hget
        subst hget
        refine Or.inl ?_
        have hi' : i = n := by omega
        subst hi'
        exact hmem
      | succ i'' =>
        refine Or.inr ((ih (n + 1) ty d i j).mpr ⟨i'', dp', ?_, by omega, hmem⟩)
        simpa using hget

/-- C6 core: a `(damper, duct)` pair is recorded as a candidate exactly
when its duct-level classification is non-"none" and its distance passes
the (inclusive) threshold test. -/
theorem mem_candidates (dl : List (String × Point)) (ul : List (String × List Point))
    (thr : ℚ) (ty : IType) (d : ℚ) (i j : ℕ) :
    (ty, d, i, j) ∈ candidates dl ul thr ↔
      ∃ dp du, dl.get? i = some dp ∧ ul.get? j = some du ∧
        ductBest dp.2 du.2 = some (d, ty) ∧ 0 ≤ thr ∧ d ≤ thr ^ 2 := by
  unfold candidates
  rw [mem_candidatesAux]
  constructor
  · rintro ⟨i', dp, hget, hi, hmem⟩
    obtain ⟨_, j', du, hgetu, hj, hbest, hthr1, hthr2⟩ :=
      (mem_ductCands dp.2 thr i ul 0 ty d i j).mp hmem
    refine ⟨dp, du, ?_, ?_, hbest, hthr1, hthr2⟩
    · rw [show i = i' by omega]
      exact hget
    · rw [show j = j' by omega]
      exact hgetu
  · rintro ⟨dp, du, hget, hgetu, hbest, hthr1, hthr2⟩
    refine ⟨i, dp, hget, by omega, ?_⟩
    exact (mem_ductCands dp.2 thr i ul 0 ty d i j).mpr
      ⟨rfl, j, du, hgetu, by omega, hbest, hthr1, hthr2⟩

theorem ductBest_eq_firstMin (p : Point) (coords : List Point) :
    ductBest p coords = firstMin Option.none (nonNone p coords) :=
  ductBestAux_eq_firstMin p coords Option.none

theorem ductBest_eq_none_iff (p : Point) (coords : List Point) :
    ductBest p coords = Option.none ↔ nonNone p coords = [] := by
  rw [ductBest_eq_firstMin p coords]
  cases h : nonNone p coords with
  | nil => simp [firstMin]
  | cons r rs =>
    constructor
    · intro hc
      exact absurd hc (firstMin_some_ne_none r rs)
    · intro hc
      exact absurd hc (List.cons_ne_nil r rs)

theorem nonNone_eq_nil_iff (p : Point) (coords : List Point) :
    nonNone p coords = [] ↔ ∀ r ∈ segResults p coords, r.2 = IType.noneI := by
  unfold nonNone
  rw [List.filter_eq_nil_iff]
  simp

theorem ductBest_some_spec (p : Point) (coords : List Point) (d : ℚ) (ty : IType)
    (h : ductBest p coords = some (d, ty)) :
    (∀ r ∈ nonNone p coords, d ≤ r.1) ∧
      (nonNone p coords).find? (fun r => decide (r.1 ≤ d)) = some (d, ty) := by
  rw [ductBest_eq_firstMin] at h
  cases hn : nonNone p coords with
  | nil =>
    rw [hn] at h
    simp [firstMin] at h
  | cons m l =>
    rw [hn] at h
    exact firstMin_spec d ty l m h

theorem ductBest_some_mem (p : Point) (coords : List Point) (d : ℚ) (ty : IType)
    (h : ductBest p coords = some (d, ty)) :
    (d, ty) ∈ nonNone p coords ∧ ty ≠ IType.noneI := by
  have hf := (ductBest_some_spec p coords d ty h).2
  have hmem := List.mem_of_find?_eq_some hf
  refine ⟨hmem, ?_⟩
  have hp := (List.mem_filter.mp hmem).2
  simpa using hp

/-- C4: the duct-level result is "none" exactly when every segment of the
polyline classifies "none" (and then the pair yields no candidate at any
threshold); otherwise its distance is the minimum of
`point_to_line_distance` over exactly the non-"none" segments (attained,
with its classification). -/
theorem duct_level_minimum (p : Point) (coords : List Point) :
    (ductBest p coords = Option.none ↔ ∀ r ∈ segResults p coords, r.2 = IType.noneI) ∧
    (∀ d ty, ductBest p coords = some (d, ty) →
      (d, ty) ∈ nonNone p coords ∧ ∀ r ∈ nonNone p coords, d ≤ r.1) ∧
    (∀ (dl : List (String × Point)) (ul : List (String × List Point)) (thr : ℚ)
      (i j : ℕ) (dp : String × Point) (du : String × List Point),
      dl.get? i = some dp → ul.get? j = some du → ductBest dp.2 du.2 = Option.none →
      ∀ ty d, (ty, d, i, j) ∉ candidates dl ul thr) := by
  refine ⟨?_, ?_, ?_⟩
  · rw [ductBest_eq_none_iff, nonNone_eq_nil_iff]
  · intro d ty h
    exact ⟨(ductBest_some_mem p coords d ty h).1, (ductBest_some_spec p coords d ty h).1⟩
  · intro dl ul thr i j dp du hget hgetu hnone ty d hmem
    obtain ⟨dp', du', hget', hgetu', hbest, _⟩ := (mem_candidates dl ul thr ty d i j).mp hmem
    rw [hget] at hget'
    injection hget' with hget'
    rw [hgetu] at hgetu'
    injection hgetu' with hgetu'
    rw [hget', hgetu'] at hnone
    rw [hnone] at hbest
    exact absurd hbest (by simp)

/-- Witness for C4 at a concrete input. -/
theorem duct_level_minimum_w :
    ((0 : ℚ), IType.actual) ∈ nonNone (0, 0) [(0, -1), (0, 1)] := by
  have hb : ductBest ((0 : ℚ), (0 : ℚ)) [((0 : ℚ), (-1 : ℚ)), ((0 : ℚ), (1 : ℚ))] =
      some (0, IType.actual) := by
    norm_num [ductBest, ductBestAux, segStep, point_to_line_distance, lineLenSq, tParam,
      foot, distSq, actual_eq_noneI_iff, extended_eq_noneI_iff]
  exact ((duct_level_minimum (0, 0) [(0, -1), (0, 1)]).2.1 0 IType.actual hb).1

/-- C9 (implicit): the duct-level classification is the classification of
the strictly nearest non-"none" segment, ties keeping the earlier
segment (the result is the first minimum-distance entry); in particular
if some "extended" segment is strictly closer than every "actual"
segment of the duct, the pair is classified "extended". -/
theorem duct_level_tie_classification (p : Point) (coords : List Point) (d : ℚ) (ty : IType)
    (h : ductBest p coords = some (d, ty)) :
    (∀ r ∈ nonNone p coords, d ≤ r.1) ∧
    (nonNone p coords).find? (fun r => decide (r.1 ≤ d)) = some (d, ty) ∧
    ((∃ r ∈ segResults p coords, r.2 = IType.extended ∧
        ∀ r' ∈ segResults p coords, r'.2 = IType.actual → r.1 < r'.1) →
      ty = IType.extended) := by
  obtain ⟨hmin, hfind⟩ := ductBest_some_spec p coords d ty h
  refine ⟨hmin, hfind, ?_⟩
  rintro ⟨r, hrmem, hrext, hrlt⟩
  have hrnn : r ∈ nonNone p coords := by
    unfold nonNone
    rw [List.mem_filter]
    exact ⟨hrmem, by simp [hrext]⟩
  have hdr : d ≤ r.1 := hmin r hrnn
  have hdty_seg : (d, ty) ∈ segResults p coords :=
    List.mem_of_mem_filter (ductBest_some_mem p coords d ty h).1
  have hne : ty ≠ IType.noneI := (ductBest_some_mem p coords d ty h).2
  cases ty with
  | actual =>
    have hlt : r.1 < d := hrlt (d, IType.actual) hdty_seg rfl
    exact absurd hdr (not_le.mpr hlt)
  | extended => rfl
  | noneI => exact absurd rfl hne

/-- Witness for C9 at a concrete input where an "extended" segment
(distance 0) beats two "actual" segments. -/
theorem duct_level_tie_classification_w :
    (nonNone (0, 0) [(0, 5), (0, 15), (10, 0), (10, 10)]).find?
      (fun r => decide (r.1 ≤ (0 : ℚ))) = some (0, IType.extended) := by
  have hb : ductBest ((0 : ℚ), (0 : ℚ))
      [((0 : ℚ), (5 : ℚ)), (0, 15), (10, 0), (10, 10)] = some (0, IType.extended) := by
    norm_num [ductBest, ductBestAux, segStep, point_to_line_distance, lineLenSq, tParam,
      foot, distSq, DUCT_EXTENSION_UNITS, actual_eq_noneI_iff, extended_eq_noneI_iff]
  exact (duct_level_tie_classification (0, 0) [(0, 5), (0, 15), (10, 0), (10, 10)]
    0 IType.extended hb).2.1

/-- C6: a `(damper, duct)` pair is recorded as a candidate iff its
duct-level classification is not "none" and its distance passes the
inclusive threshold comparison; the embedded test `0 ≤ thr ∧ dSq ≤ thr²`
is exactly the source's `sqrt dSq ≤ thr` over the reals. -/
theorem candidate_threshold_spec (dl : List (String × Point))
    (ul : List (String × List Point)) (thr : ℚ) (ty : IType) (d : ℚ) (i j : ℕ) :
    ((ty, d, i, j) ∈ candidates dl ul thr ↔
      ∃ dp du, dl.get? i = some dp ∧ ul.get? j = some du ∧
        ductBest dp.2 du.2 = some (d, ty) ∧ ty ≠ IType.noneI ∧
        0 ≤ thr ∧ d ≤ thr ^ 2) ∧
    ((0 ≤ thr ∧ d ≤ thr ^ 2) ↔ Real.sqrt ((d : ℚ) : ℝ) ≤ ((thr : ℚ) : ℝ)) := by
  constructor
  · rw [mem_candidates]
    constructor
    · rintro ⟨dp, du, hget, hgetu, hbest, hthr1, hthr2⟩
      exact ⟨dp, du, hget, hgetu, hbest, (ductBest_some_mem dp.2 du.2 d ty hbest).2,
        hthr1, hthr2⟩
    · rintro ⟨dp, du, hget, hgetu, hbest, _, hthr1, hthr2⟩
      exact ⟨dp, du, hget, hgetu, hbest, hthr1, hthr2⟩
  · rw [Real.sqrt_le_iff]
    constructor
    · intro hq
      constructor
      · exact_mod_cast hq.1
      · exact_mod_cast hq.2
    · intro hr
      constructor
      · exact_mod_cast hr.1
      · exact_mod_cast hr.2

/-- Witness for C6 at a concrete input. -/
theorem candidate_threshold_spec_w :
    (IType.actual, (0 : ℚ), 0, 0) ∈ candidates [("d", (0, 0))] [("u", [(0, -1), (0, 1)])] 13 := by
  refine ((candidate_threshold_spec [("d", (0, 0))] [("u", [(0, -1), (0, 1)])]
    13 IType.actual 0 0 0).1).mpr ?_
  refine ⟨("d", (0, 0)), ("u", [(0, -1), (0, 1)]), by simp, by simp, ?_, by simp,
    by norm_num, by norm_num⟩
  norm_num [ductBest, ductBestAux, segStep, point_to_line_distance, lineLenSq, tParam,
    foot, distSq, actual_eq_noneI_iff, extended_eq_noneI_iff]

/-- C8: safety of the core — every candidate reaching the greedy scan
carries in-range damper and duct indices (so the list indexing
`damper_coords[damper_idx]`, `duct_coords[duct_idx]` and
`duct_used[duct_idx]` stays in range for every input), and the division
by the squared segment length is guarded by the zero test. -/
theorem scan_inputs_in_range (dl : List (String × Point)) (ul : List (String × List Point))
    (thr : ℚ) :
    (∀ c ∈ sortedCandidates dl ul thr, c.2.2.1 < dl.length ∧ c.2.2.2 < ul.length) ∧
    (∀ p s e, lineLenSq s e = 0 →
      point_to_line_distance p s e = (distSq p s, IType.actual)) := by
  constructor
  · intro c hc
    have hm : c ∈ candidates dl ul thr :=
      (List.perm_insertionSort candLEr (candidates dl ul thr)).mem_iff.mp hc
    obtain ⟨ty, d, i, j⟩ := c
    obtain ⟨dp, du, hget, hgetu, _⟩ := (mem_candidates dl ul thr ty d i j).mp hm
    show i < dl.length ∧ j < ul.length
    constructor
    · by_contra hle
      rw [List.get?_eq_getElem?, List.getElem?_eq_none (by omega)] at hget
      cases hget
    · by_contra hle
      rw [List.get?_eq_getElem?, List.getElem?_eq_none (by omega)] at hgetu
      cases hgetu
  · intro p s e h
    unfold point_to_line_distance
    rw [if_pos h]

/-- Witness for C8 at a concrete input. -/
theorem scan_inputs_in_range_w :
    (IType.actual, (0 : ℚ), 0, 0).2.2.1 < [("d", ((0 : ℚ), (0 : ℚ)))].length ∧
      (IType.actual, (0 : ℚ), 0, 0).2.2.2 < [("u", [((0 : ℚ), (-1 : ℚ)), (0, 1)])].length := by
  refine (scan_inputs_in_range [("d", (0, 0))] [("u", [(0, -1), (0, 1)])] 13).1
    (IType.actual, 0, 0, 0) ?_
  norm_num [sortedCandidates, candidates, candidatesAux, ductCands, ductBest, ductBestAux,
    segStep, point_to_line_distance, lineLenSq, tParam, foot, distSq, candLEr, typePriority,
    actual_eq_noneI_iff, extended_eq_noneI_iff]

/-- C5: the candidate sort orders the list ascending by the lexicographic
key `(typePriority, distance)` (`candLEr`), with
`typePriority actual = 0 < typePriority extended = 1`; the result is a
permutation of the candidate list, and consequently an "extended"
candidate never precedes an "actual" one. -/
theorem sort_order_spec (dl : List (String × Point)) (ul : List (String × List Point))
    (thr : ℚ) :
    (sortedCandidates dl ul thr).Perm (candidates dl ul thr) ∧
    List.Sorted candLEr (sortedCandidates dl ul thr) ∧
    (sortedCandidates dl ul thr).Pairwise
      (fun a b => a.1 = IType.extended → b.1 ≠ IType.actual) ∧
    typePriority IType.actual = 0 ∧ typePriority IType.extended = 1 := by
  have hs : List.Sorted candLEr (sortedCandidates dl ul thr) :=
    List.sorted_insertionSort candLEr (candidates dl ul thr)
  refine ⟨List.perm_insertionSort candLEr (candidates dl ul thr), hs, ?_, rfl, rfl⟩
  refine hs.imp ?_
  intro a b h hext hbact
  unfold candLEr at h
  rw [hext, hbact] at h
  simp [typePriority] at h

theorem mem_of_sortedCandidates (dl : List (String × Point))
    (ul : List (String × List Point)) (thr : ℚ) (c : Cand)
    (h : c ∈ sortedCandidates dl ul thr) : c ∈ candidates dl ul thr :=
  (List.perm_insertionSort candLEr (candidates dl ul thr)).mem_iff.mp h

theorem cand_index_lt (dl : List (String × Point)) (ul : List (String × List Point))
    (thr : ℚ) (c : Cand) (h : c ∈ candidates dl ul thr) :
    c.2.2.1 < dl.length ∧ c.2.2.2 < ul.length := by
  obtain ⟨ty, d, i, j⟩ := c
  obtain ⟨dp, du, hget, hgetu, _⟩ := (mem_candidates dl ul thr ty d i j).mp h
  show i < dl.length ∧ j < ul.length
  constructor
  · by_contra hle
    rw [List.get?_eq_getElem?, List.getElem?_eq_none (by omega)] at hget
    cases hget
  · by_contra hle
    rw [List.get?_eq_getElem?, List.getElem?_eq_none (by omega)] at hgetu
    cases hgetu

theorem cand_lookup_spec (dl : List (String × Point)) (ul : List (String × List Point))
    (thr : ℚ) (c : Cand) (h : c ∈ candidates dl ul thr) :
    (∃ dp, dl.get? c.2.2.1 = some dp ∧ damperId dl c = dp.1) ∧
    (∃ du, ul.get? c.2.2.2 = some du ∧ ductId ul c = du.1) := by
  obtain ⟨ty, d, i, j⟩ := c
  obtain ⟨dp, du, hget, hgetu, _⟩ := (mem_candidates dl ul thr ty d i j).mp h
  refine ⟨⟨dp, hget, ?_⟩, ⟨du, hgetu, ?_⟩⟩
  · show ((dl.get? i).getD ("", (0, 0))).1 = dp.1
    rw [hget]
    rfl
  · show ((ul.get? j).getD ("", [])).1 = du.1
    rw [hgetu]
    rfl

theorem assigned_cons_pos (used : List Bool) (c : Cand) (cs : List Cand)
    (h : used.getD c.2.2.2 false = true) : assigned used (c :: cs) = assigned used cs := by
  show (if used.getD c.2.2.2 false = true then assigned used cs
    else c :: assigned (used.set c.2.2.2 true) cs) = assigned used cs
  rw [if_pos h]

theorem assigned_cons_neg (used : List Bool) (c : Cand) (cs : List Cand)
    (h : used.getD c.2.2.2 false = false) :
    assigned used (c :: cs) = c :: assigned (used.set c.2.2.2 true) cs := by
  show (if used.getD c.2.2.2 false = true then assigned used cs
    else c :: assigned (used.set c.2.2.2 true) cs) = c :: assigned (used.set c.2.2.2 true) cs
  rw [if_neg (by rw [h]; simp)]

theorem scanStep_pos (dl : List (String × Point)) (ul : List (String × List Point))
    (st : List Bool × List (String × String)) (c : Cand)
    (h : st.1.getD c.2.2.2 false = true) : scanStep dl ul st c = st := by
  show (if st.1.getD c.2.2.2 false = true then st
    else (st.1.set c.2.2.2 true, dictSet st.2 (damperId dl c) (ductId ul c))) = st
  rw [if_pos h]

theorem scanStep_neg (dl : List (String × Point)) (ul : List (String × List Point))
    (st : List Bool × List (String × String)) (c : Cand)
    (h : st.1.getD c.2.2.2 false = false) :
    scanStep dl ul st c =
      (st.1.set c.2.2.2 true, dictSet st.2 (damperId dl c) (ductId ul c)) := by
  show (if st.1.getD c.2.2.2 false = true then st
    else (st.1.set c.2.2.2 true, dictSet st.2 (damperId dl c) (ductId ul c))) =
      (st.1.set c.2.2.2 true, dictSet st.2 (damperId dl c) (ductId ul c))
  rw [if_neg (by rw [h]; simp)]

/-- The scan from any state is the scan state produced by the `assigned`
sublist: duct flags are set for exactly the assigned candidates, and the
mapping receives exactly their (damper id, duct id) assignments in
order. -/
theorem scanAux_spec (dl : List (String × Point)) (ul : List (String × List Point)) :
    ∀ (cs : List Cand) (used : List Bool) (m : List (String × String)),
      scanAux dl ul (used, m) cs =
        (setTrues used (assigned used cs),
          insertList m ((assigned used cs).map fun c => (damperId dl c, ductId ul c)))
  | [], used, m => rfl
  | c :: cs, used, m => by
    rcases (Bool.eq_false_or_eq_true (used.getD c.2.2.2 false)).symm with hb | hb
    · show scanAux dl ul (scanStep dl ul (used, m) c) cs = _
      rw [scanStep_neg dl ul (used, m) c hb]
      rw [scanAux_spec dl ul cs (used.set c.2.2.2 true) (dictSet m (damperId dl c) (ductId ul c))]
      rw [assigned_cons_neg used c cs hb]
      rfl
    · show scanAux dl ul (scanStep dl ul (used, m) c) cs = _
      rw [scanStep_pos dl ul (used, m) c hb]
      rw [scanAux_spec dl ul cs used m]
      rw [assigned_cons_pos used c cs hb]

theorem assigned_subset (cs : List Cand) : ∀ (used : List Bool) (c : Cand),
    c ∈ assigned used cs → c ∈ cs := by
  induction cs with
  | nil =>
    intro used c h
    simp [assigned] at h
  | cons c' cs ih =>
    intro used c h
    rcases (Bool.eq_false_or_eq_true (used.getD c'.2.2.2 false)).symm with hb | hb
    · rw [assigned_cons_neg used c' cs hb] at h
      rcases List.mem_cons.mp h with rfl | h'
      · exact List.mem_cons_self c cs
      · exact List.mem_cons.mpr (Or.inr (ih _ c h'))
    · rw [assigned_cons_pos used c' cs hb] at h
      exact List.mem_cons.mpr (Or.inr (ih used c h))

theorem assigned_not_used (cs : List Cand) : ∀ (used : List Bool) (c : Cand),
    c ∈ assigned used cs → used.getD c.2.2.2 false = false := by
  induction cs with
  | nil =>
    intro used c h
    simp [assigned] at h
  | cons c' cs ih =>
    intro used c h
    rcases (Bool.eq_false_or_eq_true (used.getD c'.2.2.2 false)).symm with hb | hb
    · rw [assigned_cons_neg used c' cs hb] at h
      rcases List.mem_cons.mp h with rfl | h'
      · exact hb
      · have h2 := ih (used.set c'.2.2.2 true) c h'
        by_cases hij : c.2.2.2 = c'.2.2.2
        · by_cases hlen : c'.2.2.2 < used.length
          · rw [hij, List.getD_eq_getElem?_getD, List.getElem?_set_self hlen] at h2
            simp at h2
          · rw [List.set_eq_of_length_le (by omega)] at h2
            exact h2
        · rw [List.getD_eq_getElem?_getD, List.getElem?_set_ne (fun he => hij he.symm)] at h2
          rw [List.getD_eq_getElem?_getD]
          exact h2
    · rw [assigned_cons_pos used c' cs hb] at h
      exact ih used c h

theorem assigned_pairwise (cs : List Cand) : ∀ used : List Bool,
    (∀ c ∈ cs, c.2.2.2 < used.length) →
    (assigned used cs).Pairwise (fun a b => a.2.2.2 ≠ b.2.2.2) := by
  induction cs with
  | nil =>
    intro used _
    simp [assigned]
  | cons c' cs ih =>
    intro used hlt
    rcases (Bool.eq_false_or_eq_true (used.getD c'.2.2.2 false)).symm with hb | hb
    · rw [assigned_cons_neg used c' cs hb]
      refine List.Pairwise.cons ?_ (ih (used.set c'.2.2.2 true) ?_)
      · intro b hbmem he
        have h2 := assigned_not_used cs (used.set c'.2.2.2 true) b hbmem
        rw [← he, List.getD_eq_getElem?_getD,
          List.getElem?_set_self (hlt c' (List.mem_cons_self c' cs))] at h2
        simp at h2
      · intro c hc
        rw [List.length_set]
        exact hlt c (List.mem_cons.mpr (Or.inr hc))
    · rw [assigned_cons_pos used c' cs hb]
      exact ih used (fun c hc => hlt c (List.mem_cons.mpr (Or.inr hc)))

theorem setTrues_getD_true : ∀ (l : List Cand) (used : List Bool) (i : ℕ),
    i < used.length → (i ∈ l.map (fun c => c.2.2.2) ∨ used.getD i false = true) →
    (setTrues used l).getD i false = true
  | [], used, i => by
    intro _ h
    rcases h with h | h
    · simp at h
    · exact h
  | c :: cs, used, i => by
    intro hlen h
    show (setTrues (used.set c.2.2.2 true) cs).getD i false = true
    apply setTrues_getD_true cs (used.set c.2.2.2 true) i
      (by rw [List.length_set]; exact hlen)
    by_cases hic : i = c.2.2.2
    · refine Or.inr ?_
      rw [List.getD_eq_getElem?_getD, hic, List.getElem?_set_self (by rw [← hic]; exact hlen)]
      rfl
    · simp only [List.map_cons, List.mem_cons] at h
      rcases h with (h | h) | h
      · exact absurd h hic
      · exact Or.inl h
      · refine Or.inr ?_
        rw [List.getD_eq_getElem?_getD, List.getElem?_set_ne (fun he => hic he.symm)]
        rw [List.getD_eq_getElem?_getD] at h
        exact h

theorem dictGet_dictSet (k v : String) : ∀ (m : List (String × String)) (k' : String),
    dictGet (dictSet m k v) k' = if k = k' then some v else dictGet m k'
  | [], k' => by
    by_cases h : k = k'
    · rw [if_pos h]
      show (if k = k' then some v else Option.none) = some v
      rw [if_pos h]
    · rw [if_neg h]
      show (if k = k' then some v else Option.none) = Option.none
      rw [if_neg h]
  | kv :: rest, k' => by
    by_cases h : kv.1 = k
    · rw [show dictSet (kv :: rest) k v = (k, v) :: rest by
        show (if kv.1 = k then (k, v) :: rest else kv :: dictSet rest k v) = (k, v) :: rest
        rw [if_pos h]]
      by_cases h' : k = k'
      · show (if k = k' then some v else dictGet rest k') = _
        rw [if_pos h', if_pos h']
      · show (if k = k' then some v else dictGet rest k') = _
        rw [if_neg h', if_neg h']
        show _ = (if kv.1 = k' then some kv.2 else dictGet rest k')
        rw [if_neg (by rw [h]; exact h')]
    · rw [show dictSet (kv :: rest) k v = kv :: dictSet rest k v by
        show (if kv.1 = k then (k, v) :: rest else kv :: dictSet rest k v) = kv :: dictSet rest k v
        rw [if_neg h]]
      show (if kv.1 = k' then some kv.2 else dictGet (dictSet rest k v) k') = _
      by_cases h'' : kv.1 = k'
      · rw [if_pos h'']
        have hkk' : ¬ k = k' := by
          intro hc
          exact h (by rw [hc, h''])
        rw [if_neg hkk']
        show _ = (if kv.1 = k' then some kv.2 else dictGet rest k')
        rw [if_pos h'']
      · rw [if_neg h'', dictGet_dictSet k v rest k']
        by_cases h' : k = k'
        · rw [if_pos h', if_pos h']
        · rw [if_neg h', if_neg h']
          show _ = (if kv.1 = k' then some kv.2 else dictGet rest k')
          rw [if_neg h'']

theorem map_fst_dictSet (k v : String) : ∀ m : List (String × String),
    (dictSet m k v).map Prod.fst =
      if k ∈ m.map Prod.fst then m.map Prod.fst else m.map Prod.fst ++ [k]
  | [] => by simp [dictSet]
  | kv :: rest => by
    by_cases h : kv.1 = k
    · rw [show dictSet (kv :: rest) k v = (k, v) :: rest by
        show (if kv.1 = k then (k, v) :: rest else kv :: dictSet rest k v) = (k, v) :: rest
        rw [if_pos h]]
      rw [if_pos (by simp [List.mem_cons, h.symm])]
      simp [h]
    · rw [show dictSet (kv :: rest) k v = kv :: dictSet rest k v by
        show (if kv.1 = k then (k, v) :: rest else kv :: dictSet rest k v) = kv :: dictSet rest k v
        rw [if_neg h]]
      have hne : ¬ k = kv.1 := fun hc => h hc.symm
      by_cases hm : k ∈ rest.map Prod.fst
      · rw [if_pos (by simp [List.mem_cons, hm])]
        simp only [List.map_cons]
        rw [map_fst_dictSet k v rest, if_pos hm]
      · rw [if_neg (by simp [List.mem_cons, hne, hm])]
        simp only [List.map_cons]
        rw [map_fst_dictSet k v rest, if_neg hm]
        rfl

theorem nodup_map_fst_dictSet (m : List (String × String)) (k v : String)
    (h : (m.map Prod.fst).Nodup) : ((dictSet m k v).map Prod.fst).Nodup := by
  rw [map_fst_dictSet]
  by_cases hm : k ∈ m.map Prod.fst
  · rw [if_pos hm]
    exact h
  · rw [if_neg hm]
    simp [List.nodup_append, h, hm]

theorem mem_dictSet (k v : String) : ∀ (m : List (String × String)) (kv : String × String),
    kv ∈ dictSet m k v → kv = (k, v) ∨ kv ∈ m
  | [], kv => by
    intro h
    simp [dictSet] at h
    exact Or.inl h
  | kv' :: rest, kv => by
    intro h
    by_cases hh : kv'.1 = k
    · rw [show dictSet (kv' :: rest) k v = (k, v) :: rest by
        show (if kv'.1 = k then (k, v) :: rest else kv' :: dictSet rest k v) = (k, v) :: rest
        rw [if_pos hh]] at h
      rcases List.mem_cons.mp h with rfl | h'
      · exact Or.inl rfl
      · exact Or.inr (List.mem_cons.mpr (Or.inr h'))
    · rw [show dictSet (kv' :: rest) k v = kv' :: dictSet rest k v by
        show (if kv'.1 = k then (k, v) :: rest else kv' :: dictSet rest k v) =
          kv' :: dictSet rest k v
        rw [if_neg hh]] at h
      rcases List.mem_cons.mp h with rfl | h'
      · exact Or.inr (List.mem_cons_self kv rest)
      · rcases mem_dictSet k v rest kv h' with h'' | h''
        · exact Or.inl h''
        · exact Or.inr (List.mem_cons.mpr (Or.inr h''))

theorem dictGet_ne_none_iff : ∀ (m : List (String × String)) (k : String),
    dictGet m k ≠ Option.none ↔ k ∈ m.map Prod.fst
  | [], k => by simp [dictGet]
  | kv :: rest, k => by
    by_cases h : kv.1 = k
    · show (if kv.1 = k then some kv.2 else dictGet rest k) ≠ Option.none ↔ _
      rw [if_pos h]
      simp [h.symm]
    · show (if kv.1 = k then some kv.2 else dictGet rest k) ≠ Option.none ↔ _
      rw [if_neg h]
      rw [dictGet_ne_none_iff rest k]
      simp only [List.map_cons, List.mem_cons]
      constructor
      · intro hm
        exact Or.inr hm
      · intro hm
        rcases hm with hm | hm
        · exact absurd hm.symm h
        · exact hm

theorem dictGet_eq_some_iff_mem : ∀ (m : List (String × String)),
    (m.map Prod.fst).Nodup → ∀ (k v : String), (dictGet m k = some v ↔ (k, v) ∈ m)
  | [], _ => by
    intro k v
    simp [dictGet]
  | kv :: rest, hnd => by
    intro k v
    have hnd' : (rest.map Prod.fst).Nodup := (List.nodup_cons.mp hnd).2
    have hhead : kv.1 ∉ rest.map Prod.fst := (List.nodup_cons.mp hnd).1
    by_cases h : kv.1 = k
    · show (if kv.1 = k then some kv.2 else dictGet rest k) = some v ↔ _
      rw [if_pos h]
      constructor
      · intro hv
        injection hv with hv
        refine List.mem_cons.mpr (Or.inl ?_)
        rw [← h, ← hv]
      · intro hm
        rcases List.mem_cons.mp hm with he | hm'
        · rw [show kv = (k, v) from he.symm ▸ rfl]
        · exact absurd (h ▸ List.mem_map_of_mem Prod.fst hm' : kv.1 ∈ rest.map Prod.fst) hhead
    · show (if kv.1 = k then some kv.2 else dictGet rest k) = some v ↔ _
      rw [if_neg h]
      rw [dictGet_eq_some_iff_mem rest hnd' k v]
      constructor
      · intro hm
        exact List.mem_cons.mpr (Or.inr hm)
      · intro hm
        rcases List.mem_cons.mp hm with he | hm'
        · exact absurd (congrArg Prod.fst he.symm : kv.1 = k) h
        · exact hm'

theorem initMappingAux_map_fst : ∀ (dl : List (String × Point)) (m : List (String × String))
    (k : String), k ∈ (initMappingAux m dl).map Prod.fst ↔
      k ∈ m.map Prod.fst ∨ k ∈ dl.map Prod.fst
  | [], m, k => by simp [initMappingAux]
  | dp :: rest, m, k => by
    show k ∈ (initMappingAux (dictSet m dp.1 "NA") rest).map Prod.fst ↔ _
    rw [initMappingAux_map_fst rest (dictSet m dp.1 "NA") k]
    rw [map_fst_dictSet]
    by_cases hm : dp.1 ∈ m.map Prod.fst
    · rw [if_pos hm]
      simp only [List.map_cons, List.mem_cons]
      constructor
      · tauto
      · rintro (h | h | h)
        · tauto
        · exact Or.inl (h ▸ hm)
        · tauto
    · rw [if_neg hm]
      simp only [List.mem_append, List.mem_singleton, List.map_cons, List.mem_cons]
      tauto

theorem initMappingAux_nodup : ∀ (dl : List (String × Point)) (m : List (String × String)),
    (m.map Prod.fst).Nodup → ((initMappingAux m dl).map Prod.fst).Nodup
  | [], _, h => h
  | dp :: rest, m, h =>
    initMappingAux_nodup rest (dictSet m dp.1 "NA") (nodup_map_fst_dictSet m dp.1 "NA" h)

theorem initMappingAux_val : ∀ (dl : List (String × Point)) (m : List (String × String))
    (kv : String × String), kv ∈ initMappingAux m dl → kv.2 = "NA" ∨ kv ∈ m
  | [], _, _ => fun h => Or.inr h
  | dp :: rest, m, kv => by
    intro h
    rcases initMappingAux_val rest (dictSet m dp.1 "NA") kv h with h' | h'
    · exact Or.inl h'
    · rcases mem_dictSet dp.1 "NA" m kv h' with h'' | h''
      · exact Or.inl (by rw [h''])
      · exact Or.inr h''

theorem initMapping_map_fst (dl : List (String × Point)) (k : String) :
    k ∈ (initMapping dl).map Prod.fst ↔ k ∈ dl.map Prod.fst := by
  unfold initMapping
  rw [initMappingAux_map_fst dl [] k]
  simp

theorem initMapping_nodup (dl : List (String × Point)) :
    ((initMapping dl).map Prod.fst).Nodup :=
  initMappingAux_nodup dl [] (by simp)

theorem initMapping_val (dl : List (String × Point)) (kv : String × String)
    (h : kv ∈ initMapping dl) : kv.2 = "NA" := by
  rcases initMappingAux_val dl [] kv h with h' | h'
  · exact h'
  · simp at h'

theorem insertList_map_fst_eq : ∀ (l : List (String × String)) (m : List (String × String)),
    (∀ e ∈ l, e.1 ∈ m.map Prod.fst) → (insertList m l).map Prod.fst = m.map Prod.fst
  | [], _, _ => rfl
  | e :: rest, m, h => by
    show (insertList (dictSet m e.1 e.2) rest).map Prod.fst = _
    have hkeys : (dictSet m e.1 e.2).map Prod.fst = m.map Prod.fst := by
      rw [map_fst_dictSet, if_pos (h e (List.mem_cons_self e rest))]
    rw [insertList_map_fst_eq rest (dictSet m e.1 e.2) ?_, hkeys]
    intro e' he'
    rw [hkeys]
    exact h e' (List.mem_cons.mpr (Or.inr he'))

theorem insertList_val : ∀ (l : List (String × String)) (m : List (String × String))
    (kv : String × String), kv ∈ insertList m l → kv.2 ∈ l.map Prod.snd ∨ kv ∈ m
  | [], _, _ => fun h => Or.inr h
  | e :: rest, m, kv => by
    intro h
    rcases insertList_val rest (dictSet m e.1 e.2) kv h with h' | h'
    · exact Or.inl (by simp only [List.map_cons, List.mem_cons]; exact Or.inr h')
    · rcases mem_dictSet e.1 e.2 m kv h' with h'' | h''
      · refine Or.inl ?_
        simp only [List.map_cons, List.mem_cons]
        exact Or.inl (by rw [h''])
      · exact Or.inr h''

theorem dictGet_insertList : ∀ (l : List (String × String)) (m : List (String × String))
    (k : String), dictGet (insertList m l) k =
      match lastVal? l k with
      | some v => some v
      | Option.none => dictGet m k
  | [], m, k => rfl
  | e :: rest, m, k => by
    show dictGet (insertList (dictSet m e.1 e.2) rest) k = _
    rw [dictGet_insertList rest (dictSet m e.1 e.2) k]
    have hcons : lastVal? (e :: rest) k =
        match lastVal? rest k with
        | some v => some v
        | Option.none => if e.1 = k then some e.2 else Option.none := rfl
    rw [hcons]
    cases hl : lastVal? rest k with
    | some v => rfl
    | none =>
      rw [dictGet_dictSet e.1 e.2 m k]
      by_cases he : e.1 = k
      · rw [if_pos he, if_pos he]
      · rw [if_neg he, if_neg he]

theorem lastVal?_mem : ∀ (l : List (String × String)) (k v : String),
    lastVal? l k = some v → (k, v) ∈ l
  | [], k, v => by
    intro h
    simp [lastVal?] at h
  | e :: rest, k, v => by
    intro h
    have hcons : lastVal? (e :: rest) k =
        match lastVal? rest k with
        | some v => some v
        | Option.none => if e.1 = k then some e.2 else Option.none := rfl
    rw [hcons] at h
    cases hl : lastVal? rest k with
    | some v' =>
      rw [hl] at h
      injection h with h
      exact List.mem_cons.mpr (Or.inr (lastVal?_mem rest k v (h ▸ hl)))
    | none =>
      rw [hl] at h
      show (k, v) ∈ e :: rest
      by_cases he : e.1 = k
      · rw [if_pos he] at h
        injection h with h
        refine List.mem_cons.mpr (Or.inl ?_)
        rw [← he, ← h]
      · rw [if_neg he] at h
        cases h

theorem scanFold_spec (dl : List (String × Point)) (ul : List (String × List Point))
    (cs : List Cand) :
    scanFold dl ul cs =
      (setTrues (List.replicate ul.length false)
          (assigned (List.replicate ul.length false) cs),
        insertList (initMapping dl)
          ((assigned (List.replicate ul.length false) cs).map
            fun c => (damperId dl c, ductId ul c))) :=
  scanAux_spec dl ul cs (List.replicate ul.length false) (initMapping dl)

/-- C10 (implicit): the greedy scan never consults whether a candidate's
damper already holds an assignment (`scanStep` tests only `duct_used`);
every candidate whose duct is still free when it is scanned (the
`assigned` sublist) marks its duct consumed in the final `duct_used`,
and a damper's final mapping value is the duct id of its *last* such
candidate in sorted order, not its first. -/
theorem greedy_scan_no_damper_check (dl : List (String × Point))
    (ul : List (String × List Point)) (thr : ℚ) (k v : String) (c : Cand) :
    (lastVal? ((assigned (List.replicate ul.length false) (sortedCandidates dl ul thr)).map
        fun c => (damperId dl c, ductId ul c)) k = some v →
      dictGet (map_dampers_to_ducts dl ul thr) k = some v) ∧
    (c ∈ assigned (List.replicate ul.length false) (sortedCandidates dl ul thr) →
      (scanFold dl ul (sortedCandidates dl ul thr)).1.getD c.2.2.2 false = true) := by
  constructor
  · intro h
    unfold map_dampers_to_ducts
    rw [scanFold_spec]
    show dictGet (insertList (initMapping dl)
      ((assigned (List.replicate ul.length false) (sortedCandidates dl ul thr)).map
        fun c => (damperId dl c, ductId ul c))) k = some v
    rw [dictGet_insertList _ _ k, h]
  · intro h
    rw [scanFold_spec]
    show (setTrues (List.replicate ul.length false)
      (assigned (List.replicate ul.length false) (sortedCandidates dl ul thr))).getD
        c.2.2.2 false = true
    apply setTrues_getD_true
    · rw [List.length_replicate]
      exact (cand_index_lt dl ul thr c (mem_of_sortedCandidates dl ul thr c
        (assigned_subset (sortedCandidates dl ul thr) (List.replicate ul.length false) c h))).2
    · exact Or.inl (List.mem_map_of_mem (fun c => c.2.2.2) h)

/-- Witness for C10: in the C1 failing input the damper's two candidates
are both assigned; the final mapping holds the last one ("u2"). -/
theorem greedy_scan_no_damper_check_w :
    dictGet (map_dampers_to_ducts [("d", (0, 0))]
      [("u1", [(0, -1), (0, 1)]), ("u2", [(1, -1), (1, 1)])] 13) "d" = some "u2" := by
  refine (greedy_scan_no_damper_check [("d", (0, 0))]
    [("u1", [(0, -1), (0, 1)]), ("u2", [(1, -1), (1, 1)])] 13 "d" "u2"
    (IType.actual, 1, 0, 1)).1 ?_
  norm_num [assigned, sortedCandidates, candidates, candidatesAux, ductCands, ductBest,
    ductBestAux, segStep, point_to_line_distance, lineLenSq, tParam, foot, distSq,
    DUCT_EXTENSION_UNITS, candLEr, typePriority, actual_eq_noneI_iff, extended_eq_noneI_iff,
    lastVal?, damperId, ductId, List.replicate, List.set, List.get?]

/-- C2 (amended): the mapping's keys are exactly the input damper ids,
each key occurring once, with "NA" as the unassigned sentinel and every
other value an input duct id; and provided the input duct ids are
pairwise distinct, no two distinct dampers map to the same duct id (the
scan guarantees distinct duct *indices*; duplicate input duct ids can
still collide, see the counterexample). -/
theorem mapping_invariants (dl : List (String × Point)) (ul : List (String × List Point))
    (thr : ℚ) :
    (∀ k, dictGet (map_dampers_to_ducts dl ul thr) k ≠ Option.none ↔ k ∈ dl.map Prod.fst) ∧
    ((map_dampers_to_ducts dl ul thr).map Prod.fst).Nodup ∧
    (∀ kv ∈ map_dampers_to_ducts dl ul thr, kv.2 = "NA" ∨ kv.2 ∈ ul.map Prod.fst) ∧
    ((ul.map Prod.fst).Nodup →
      ∀ kv1 ∈ map_dampers_to_ducts dl ul thr, ∀ kv2 ∈ map_dampers_to_ducts dl ul thr,
        kv1.2 = kv2.2 → kv1.2 ≠ "NA" → kv1.1 = kv2.1) := by
  have hMsub : ∀ c ∈ assigned (List.replicate ul.length false) (sortedCandidates dl ul thr),
      c ∈ candidates dl ul thr := fun c hc =>
    mem_of_sortedCandidates dl ul thr c
      (assigned_subset (sortedCandidates dl ul thr) (List.replicate ul.length false) c hc)
  have hM : map_dampers_to_ducts dl ul thr =
      insertList (initMapping dl)
        ((assigned (List.replicate ul.length false) (sortedCandidates dl ul thr)).map
          fun c => (damperId dl c, ductId ul c)) := by
    unfold map_dampers_to_ducts
    rw [scanFold_spec]
  have hkeys : (map_dampers_to_ducts dl ul thr).map Prod.fst =
      (initMapping dl).map Prod.fst := by
    rw [hM]
    apply insertList_map_fst_eq
    intro e he
    obtain ⟨c, hc, rfl⟩ := List.mem_map.mp he
    obtain ⟨⟨dp, hget, hid⟩, _⟩ := cand_lookup_spec dl ul thr c (hMsub c hc)
    rw [initMapping_map_fst]
    show damperId dl c ∈ dl.map Prod.fst
    rw [hid]
    exact List.mem_map_of_mem Prod.fst (List.get?_mem hget)
  have hnodup : ((map_dampers_to_ducts dl ul thr).map Prod.fst).Nodup := by
    rw [hkeys]
    exact initMapping_nodup dl
  refine ⟨?_, hnodup, ?_, ?_⟩
  · intro k
    rw [dictGet_ne_none_iff (map_dampers_to_ducts dl ul thr) k, hkeys, initMapping_map_fst]
  · intro kv hkv
    rw [hM] at hkv
    rcases insertList_val _ _ kv hkv with h | h
    · refine Or.inr ?_
      rw [List.map_map] at h
      obtain ⟨c, hc, hid⟩ := List.mem_map.mp h
      obtain ⟨_, ⟨du, hgetu, hid'⟩⟩ := cand_lookup_spec dl ul thr c (hMsub c hc)
      have : kv.2 = du.1 := by
        rw [← hid]
        exact hid'
      rw [this]
      exact List.mem_map_of_mem Prod.fst (List.get?_mem hgetu)
    · exact Or.inl (initMapping_val dl kv h)
  · intro hU kv1 h1 kv2 h2 hv hvNA
    have hlast : ∀ kv : String × String, kv ∈ map_dampers_to_ducts dl ul thr → kv.2 ≠ "NA" →
        ∃ c ∈ assigned (List.replicate ul.length false) (sortedCandidates dl ul thr),
          damperId dl c = kv.1 ∧ ductId ul c = kv.2 := by
      intro kv hkv hkvNA
      have hget : dictGet (map_dampers_to_ducts dl ul thr) kv.1 = some kv.2 :=
        (dictGet_eq_some_iff_mem (map_dampers_to_ducts dl ul thr) hnodup kv.1 kv.2).mpr hkv
      rw [hM, dictGet_insertList] at hget
      cases hl : lastVal? ((assigned (List.replicate ul.length false)
          (sortedCandidates dl ul thr)).map fun c => (damperId dl c, ductId ul c)) kv.1 with
      | none =>
        rw [hl] at hget
        have hmem : (kv.1, kv.2) ∈ initMapping dl :=
          (dictGet_eq_some_iff_mem (initMapping dl) (initMapping_nodup dl) kv.1 kv.2).mp hget
        exact absurd (initMapping_val dl (kv.1, kv.2) hmem) hkvNA
      | some v' =>
        rw [hl] at hget
        injection hget with hget
        have hmem := lastVal?_mem _ kv.1 v' hl
        obtain ⟨c, hc, hfc⟩ := List.mem_map.mp hmem
        refine ⟨c, hc, ?_, ?_⟩
        · exact congrArg Prod.fst hfc
        · rw [← hget]
          exact congrArg Prod.snd hfc
    obtain ⟨c1, hc1, hk1, hv1⟩ := hlast kv1 h1 hvNA
    obtain ⟨c2, hc2, hk2, hv2⟩ := hlast kv2 h2 (by rw [← hv]; exact hvNA)
    by_contra hne
    have hcne : c1 ≠ c2 := by
      intro hc
      exact hne (by rw [← hk1, ← hk2, hc])
    have hpw := assigned_pairwise (sortedCandidates dl ul thr)
      (List.replicate ul.length false) ?_
    · have hsymm : Symmetric (fun a b : Cand => a.2.2.2 ≠ b.2.2.2) :=
        fun a b h => h.symm
      have hij : c1.2.2.2 ≠ c2.2.2.2 := hpw.forall hsymm hc1 hc2 hcne
      obtain ⟨_, ⟨du1, hgetu1, hid1⟩⟩ := cand_lookup_spec dl ul thr c1 (hMsub c1 hc1)
      obtain ⟨_, ⟨du2, hgetu2, hid2⟩⟩ := cand_lookup_spec dl ul thr c2 (hMsub c2 hc2)
      have hvv : du1.1 = du2.1 := by
        rw [← hid1, ← hid2, hv1, hv2, hv]
      have hmap1 : (ul.map Prod.fst)[c1.2.2.2]? = some du1.1 := by
        rw [List.getElem?_map, ← List.get?_eq_getElem?, hgetu1]
        rfl
      have hmap2 : (ul.map Prod.fst)[c2.2.2.2]? = some du2.1 := by
        rw [List.getElem?_map, ← List.get?_eq_getElem?, hgetu2]
        rfl
      have hlen1 : c1.2.2.2 < (ul.map Prod.fst).length := by
        rw [List.length_map]
        exact (cand_index_lt dl ul thr c1 (hMsub c1 hc1)).2
      exact hij (List.getElem?_inj hlen1 hU (by rw [hmap1, hmap2, hvv]))
    · intro c hc
      rw [List.length_replicate]
      exact (cand_index_lt dl ul thr c (mem_of_sortedCandidates dl ul thr c hc)).2

/-- C1 evaluation at the failing input: one damper at (0,0); duct "u1"
(distance 0) and duct "u2" (distance 1) both qualify at threshold 13.
The scan first assigns d→u1, then - because it never checks that the
damper is already assigned - reassigns d→u2 and consumes both ducts, so
the damper ends mapped to the farther duct, not its best candidate. -/
theorem greedy_scan_reassignment_eval :
    map_dampers_to_ducts [("d", (0, 0))]
      [("u1", [(0, -1), (0, 1)]), ("u2", [(1, -1), (1, 1)])] 13 = [("d", "u2")] ∧
    (scanFold [("d", (0, 0))] [("u1", [(0, -1), (0, 1)]), ("u2", [(1, -1), (1, 1)])]
      (sortedCandidates [("d", (0, 0))]
        [("u1", [(0, -1), (0, 1)]), ("u2", [(1, -1), (1, 1)])] 13)).1 = [true, true] := by
  constructor <;>
    norm_num [map_dampers_to_ducts, scanFold, scanAux, sortedCandidates, candidates,
      candidatesAux, ductCands, ductBest, ductBestAux, segStep, point_to_line_distance,
      lineLenSq, tParam, foot, distSq, DUCT_EXTENSION_UNITS, candLEr, typePriority, scanStep,
      initMapping, initMappingAux, dictSet, damperId, ductId, actual_eq_noneI_iff,
      extended_eq_noneI_iff, List.replicate, List.set]

/-- C2 counterexample: with duplicate input duct ids ("u" twice), the two
distinct dampers "a" and "b" are both mapped to the same duct id "u",
refuting the claim's unconditional uniqueness for every input list. -/
theorem mapping_duct_id_collision :
    map_dampers_to_ducts [("a", (0, 0)), ("b", (5, 0))]
      [("u", [(0, -1), (0, 1)]), ("u", [(5, -1), (5, 1)])] 13 = [("a", "u"), ("b", "u")] ∧
    ("a" : String) ≠ "b" ∧ ("u" : String) ≠ "NA" := by
  refine ⟨?_, by decide, by decide⟩
  norm_num [map_dampers_to_ducts, scanFold, scanAux, sortedCandidates, candidates,
    candidatesAux, ductCands, ductBest, ductBestAux, segStep, point_to_line_distance,
    lineLenSq, tParam, foot, distSq, DUCT_EXTENSION_UNITS, candLEr, typePriority, scanStep,
    initMapping, initMappingAux, dictSet, damperId, ductId, actual_eq_noneI_iff,
    extended_eq_noneI_iff, List.replicate, List.set]
  decide

/-- Witness for C2 (amended) at a concrete input. -/
theorem mapping_invariants_w :
    dictGet (map_dampers_to_ducts [("d", (0, 0))] ([] : List (String × List Point)) 0) "d" ≠
      Option.none :=
  ((mapping_invariants [("d", (0, 0))] [] 0).1 "d").mpr (by simp)
